import Mathlib

/-!
Verification of the real-time voice-interaction media pipeline.

This file is a shallow embedding, in Lean 4, of the pipeline's core
components as implemented in the repository's JavaScript sources:

* `src/server/state-machine.js`  — session state machine (`StateMachine`)
* `src/server/fake-tts.js`       — synthesizer (`FakeTTS.generateAudioStream`)
* `src/server/fake-stt.js`       — VAD / recognizer (`FakeSTT.processFrame`)
* `src/server/audio-processor.js` — frame normalizer (`AudioProcessor`)
* `src/server/session-manager.js` — session controller (`Session`)

Conventions of the embedding:

* Byte buffers (`Buffer`) are `List ℕ`, each element a byte value < 256.
* JavaScript numbers are embedded as exact arithmetic (`ℕ`, `ℤ`, `ℚ`);
  `Math.floor`/`Math.round` become the corresponding integer operations.
* Fallible buffer accesses (`readInt16LE` past the end, non-integral
  `Buffer.alloc` sizes), which throw `RangeError` in Node, are modelled
  with `Option`: `none` is a thrown exception.
* Wall-clock timestamps and log metadata carry no information the
  properties mention, so transition records keep only source and target
  states, and logged events keep only their names.
* The synthesizer's per-sample waveform comes from floating-point
  `Math.sin`; the waveform itself is explicitly unspecified by the
  contract, so the per-sample PCM value is abstracted as a function
  `ℕ → ℤ` of the global sample index, and every theorem about the
  synthesizer is proved for all such waveforms.
-/

/-! ## Byte-level helpers (Node `Buffer` primitives) -/

/-- Two's-complement decoding of an unsigned 16-bit value (`b0 + 256*b1`)
into a signed integer, as `Buffer.readInt16LE` does. -/
def toInt16 (u : ℕ) : ℤ :=
  if u < 32768 then (u : ℤ) else (u : ℤ) - 65536

/-- Node `buf.readInt16LE(offset)`: reads two little-endian bytes.
Out-of-range offsets (including negative ones) throw in Node; the model
returns `none` there. -/
def readInt16LE (buf : List ℕ) (off : ℤ) : Option ℤ :=
  if 0 ≤ off ∧ off + 2 ≤ (buf.length : ℤ) then
    some (toInt16 (buf.getD off.toNat 0 + 256 * buf.getD (off.toNat + 1) 0))
  else
    none

/-- Node `buf.writeInt16LE(value, _)`: the two little-endian bytes of a
16-bit value (callers only ever pass in-range values). -/
def writeInt16LE (v : ℤ) : List ℕ :=
  [((v % 65536).toNat) % 256, ((v % 65536).toNat) / 256]

/-- JavaScript `Math.round`: rounds half toward positive infinity. -/
def jsRound (q : ℚ) : ℤ := ⌊q + 1 / 2⌋

/-! ## Session state machine (`src/server/state-machine.js`) -/

/-- The five session states of `SessionState`. -/
inductive SessionState
  | IDLE
  | LISTENING
  | PROCESSING
  | SPEAKING
  | INTERRUPTED
deriving DecidableEq, Repr

/-- One recorded transition (`this.history` entry); the source records
`from`, `to`, a wall-clock timestamp and free-form metadata, of which the
embedding keeps the states. -/
structure SMTransition where
  src : SessionState
  tgt : SessionState
deriving DecidableEq, Repr

/-- The state machine's mutable state: current state plus transition
history (listeners are notification-only and carry no state). -/
structure StateMachine where
  sessionId : String
  state : SessionState
  history : List SMTransition
deriving DecidableEq, Repr

/-- The `validTransitions` table of `isValidTransition`, keyed by source
state. -/
def validTargets : SessionState → List SessionState
  | .IDLE => [.LISTENING]
  | .LISTENING => [.PROCESSING, .IDLE]
  | .PROCESSING => [.SPEAKING, .LISTENING, .IDLE]
  | .SPEAKING => [.INTERRUPTED, .LISTENING, .IDLE]
  | .INTERRUPTED => [.LISTENING, .IDLE]

/-- `StateMachine.isValidTransition(from, to)`:
`validTransitions[from]?.includes(to) || false`. -/
def isValidTransition (src tgt : SessionState) : Bool :=
  (validTargets src).contains tgt

/-- `StateMachine.transition(newState)`: validates, then either records
the transition and returns `true`, or leaves everything unchanged and
returns `false` (after a logged warning). -/
def StateMachine.transition (m : StateMachine) (newState : SessionState) :
    Bool × StateMachine :=
  if isValidTransition m.state newState then
    (true, { m with
      state := newState,
      history := m.history ++ [⟨m.state, newState⟩] })
  else
    (false, m)

/-- Modelled from the spec: the valid-transition table of §4.5, written
out as the list of permitted (from, to) pairs. Compared against the
code's `isValidTransition`. -/
def specTransitionTable : List (SessionState × SessionState) :=
  [(.IDLE, .LISTENING),
   (.LISTENING, .PROCESSING), (.LISTENING, .IDLE),
   (.PROCESSING, .SPEAKING), (.PROCESSING, .LISTENING), (.PROCESSING, .IDLE),
   (.SPEAKING, .INTERRUPTED), (.SPEAKING, .LISTENING), (.SPEAKING, .IDLE),
   (.INTERRUPTED, .LISTENING), (.INTERRUPTED, .IDLE)]

/-- C4: for every current state and requested state, `transition`
succeeds (returns `true`, installs the new state, appends exactly one
history record) precisely when the pair is in the §4.5 table; otherwise
it returns `false` and leaves the machine — state and history — entirely
unchanged, and (being a total function) never throws. -/
theorem stateMachine_transition_iff_specTable (m : StateMachine) (t : SessionState) :
    ((m.transition t).1 = true ↔ (m.state, t) ∈ specTransitionTable) ∧
    ((m.transition t).1 = true →
      (m.transition t).2.state = t ∧
      (m.transition t).2.history = m.history ++ [⟨m.state, t⟩]) ∧
    ((m.transition t).1 = false → (m.transition t).2 = m) := by
  obtain ⟨sid, s, h⟩ := m
  cases s <;> cases t <;>
    simp [StateMachine.transition, isValidTransition, validTargets,
      specTransitionTable]

/-- Witness for C4 at the spec's scenario 5: from `IDLE`, requesting
`SPEAKING` is rejected, the state stays `IDLE`, and no event is recorded. -/
theorem stateMachine_transition_iff_specTable_witness :
    ((StateMachine.transition ⟨"s", .IDLE, []⟩ .SPEAKING).1 = true ↔
      ((SessionState.IDLE, SessionState.SPEAKING) ∈ specTransitionTable)) ∧
    ((StateMachine.transition ⟨"s", .IDLE, []⟩ .SPEAKING).1 = true →
      (StateMachine.transition ⟨"s", .IDLE, []⟩ .SPEAKING).2.state = .SPEAKING ∧
      (StateMachine.transition ⟨"s", .IDLE, []⟩ .SPEAKING).2.history =
        [] ++ [⟨.IDLE, .SPEAKING⟩]) ∧
    ((StateMachine.transition ⟨"s", .IDLE, []⟩ .SPEAKING).1 = false →
      (StateMachine.transition ⟨"s", .IDLE, []⟩ .SPEAKING).2 = ⟨"s", .IDLE, []⟩) :=
  stateMachine_transition_iff_specTable ⟨"s", .IDLE, []⟩ .SPEAKING

/-! ## Synthesizer (`src/server/fake-tts.js`)

JavaScript strings are embedded as `List Char`. `FakeTTS` constants:
`sampleRate = 16000`, `frameSize = 320` samples, `frameDurationMs = 20`,
`baseFrequency = 440`. -/

/-- JavaScript `text.split(' ')`: splits on every single space character,
keeping empty segments. `acc` holds the current segment reversed. -/
def splitOnSpaceAux : List Char → List Char → List (List Char)
  | [], acc => [acc.reverse]
  | c :: rest, acc =>
    if c = ' ' then acc.reverse :: splitOnSpaceAux rest []
    else splitOnSpaceAux rest (c :: acc)

/-- `text.split(' ').length` of `generateAudioStream`. -/
def wordsCount (text : List Char) : ℕ := (splitOnSpaceAux text []).length

/-- `durationSeconds = Math.max(2, words / wordsPerSecond)` with
`wordsPerSecond = 3`. -/
def durationSeconds (text : List Char) : ℚ :=
  max 2 ((wordsCount text : ℚ) / 3)

/-- `totalFrames = Math.floor(durationSeconds * 1000 / frameDurationMs)`. -/
def totalFrames (text : List Char) : ℕ :=
  (⌊durationSeconds text * 1000 / 20⌋).toNat

/-- `frequency = baseFrequency + (text.length * 10 % 200)`; it only
shapes the sine waveform, which the embedding abstracts. -/
def ttsFrequency (text : List Char) : ℕ := 440 + (text.length * 10) % 200

/-- `FakeTTS.generateFrame`: one 20 ms frame of 320 samples, two bytes
per sample, written with `writeInt16LE`. The per-sample PCM value
(`Math.floor(Math.sin(phase) * 0.7 * 32767)` in the source) is abstracted
as `g` applied to the global sample index. -/
def ttsFrame (g : ℕ → ℤ) (frameIndex : ℕ) : List ℕ :=
  (List.range 320).flatMap fun j => writeInt16LE (g (320 * frameIndex + j))

/-- The `for (frameIndex …)` loop of `generateAudioStream`: before
producing each frame the producer checks `signal.aborted` and, if it is
tripped, returns without emitting further frames; otherwise it yields
the frame and continues. `n` is the number of loop iterations left. -/
def genFrames (g : ℕ → ℤ) (aborted : ℕ → Bool) : ℕ → ℕ → List (List ℕ)
  | _, 0 => []
  | i, n + 1 =>
    if aborted i then [] else ttsFrame g i :: genFrames g aborted (i + 1) n

/-- `FakeTTS.generateAudioStream(text, signal)`: the (finite, lazy)
sequence of emitted PCM frames, as a list. `aborted i` is the state of
the cancellation flag when the producer checks it before frame `i`. -/
def generateAudioStream (g : ℕ → ℤ) (text : List Char) (aborted : ℕ → Bool) :
    List (List ℕ) :=
  genFrames g aborted 0 (totalFrames text)

/-- Each synthesized frame is 640 bytes: 320 samples of two bytes. -/
theorem ttsFrame_length (g : ℕ → ℤ) (i : ℕ) : (ttsFrame g i).length = 640 := by
  have h : ∀ l : List ℕ, (l.flatMap fun j => writeInt16LE (g (320 * i + j))).length
      = 2 * l.length := by
    intro l
    induction l with
    | nil => simp
    | cons a t ih =>
      rw [List.flatMap_cons, List.length_append, ih]
      simp [writeInt16LE]
      omega
  simp [ttsFrame, h]

/-- Absent cancellation the loop runs all its iterations. -/
theorem genFrames_false_length (g : ℕ → ℤ) (i n : ℕ) :
    (genFrames g (fun _ => false) i n).length = n := by
  induction n generalizing i with
  | zero => rfl
  | succ n ih => simp [genFrames, ih]

/-- Every emitted frame is some `ttsFrame`. -/
theorem genFrames_mem (g : ℕ → ℤ) (aborted : ℕ → Bool) (i n : ℕ) :
    ∀ f ∈ genFrames g aborted i n, ∃ j, f = ttsFrame g j := by
  induction n generalizing i with
  | zero => simp [genFrames]
  | succ n ih =>
    intro f hf
    by_cases h : aborted i
    · simp [genFrames, h] at hf
    · simp [genFrames, h] at hf
      rcases hf with rfl | hf
      · exact ⟨i, rfl⟩
      · exact ih (i + 1) f hf

/-- Absent cancellation, the emitted stream has `totalFrames text` frames. -/
theorem generateAudioStream_false_length (g : ℕ → ℤ) (text : List Char) :
    (generateAudioStream g text (fun _ => false)).length = totalFrames text := by
  simp [generateAudioStream, genFrames_false_length]

/-- A one-shot flag tripped by check `n` cuts the loop off within the
first `n` iterations. -/
theorem genFrames_length_le (g : ℕ → ℤ) (aborted : ℕ → Bool) (n : ℕ)
    (hmono : ∀ i j, i ≤ j → aborted i = true → aborted j = true)
    (hn : aborted n = true) :
    ∀ m i, (genFrames g aborted i m).length ≤ n - i := by
  intro m
  induction m with
  | zero => intro i; simp [genFrames]
  | succ m ih =>
    intro i
    by_cases h : aborted i = true
    · simp [genFrames, h]
    · have hi : i < n := by
        by_contra hle
        exact h (hmono n i (by omega) hn)
      have hb : aborted i = false := by simpa using h
      have := ih (i + 1)
      simp only [genFrames, hb, Bool.false_eq_true, if_false, List.length_cons]
      omega

/-- The cancelled run is an initial segment of the uncancelled run: every
frame that is emitted at all is emitted in generation order, before the
cancellation point. -/
theorem genFrames_eq_take (g : ℕ → ℤ) (aborted : ℕ → Bool) :
    ∀ m i, genFrames g aborted i m =
      (genFrames g (fun _ => false) i m).take (genFrames g aborted i m).length := by
  intro m
  induction m with
  | zero => intro i; rfl
  | succ m ih =>
    intro i
    by_cases h : aborted i = true
    · simp [genFrames, h]
    · simp only [genFrames, h, if_false, Bool.false_eq_true, List.length_cons,
        List.take_succ_cons]
      exact congrArg _ (ih (i + 1))

/-- C2: once the cancellation flag passed to `generateAudioStream` is
tripped (it is one-shot: monotone in time), the producer emits no frame
checked at or after the tripping point: at most `n` frames come out when
the flag is set by check `n`, the emitted frames are exactly an initial
segment of the uncancelled stream, and the producer terminates normally
(it is a total function returning a plain list, not an error). -/
theorem tts_cancellation_emits_no_further_frames (g : ℕ → ℤ) (text : List Char)
    (aborted : ℕ → Bool) (n : ℕ)
    (hmono : ∀ i j, i ≤ j → aborted i = true → aborted j = true)
    (hn : aborted n = true) :
    (generateAudioStream g text aborted).length ≤ n ∧
    generateAudioStream g text aborted =
      (generateAudioStream g text (fun _ => false)).take
        (generateAudioStream g text aborted).length := by
  constructor
  · have := genFrames_length_le g aborted n hmono hn (totalFrames text) 0
    simpa [generateAudioStream] using this
  · exact genFrames_eq_take g aborted (totalFrames text) 0

/-- Witness for C2: a flag tripped at check 2 stops a 100-frame stream
after at most 2 frames, which form a prefix of the full stream. -/
theorem tts_cancellation_emits_no_further_frames_witness :
    (generateAudioStream (fun _ => 0) "hi".toList (fun i => decide (2 ≤ i))).length ≤ 2 ∧
    generateAudioStream (fun _ => 0) "hi".toList (fun i => decide (2 ≤ i)) =
      (generateAudioStream (fun _ => 0) "hi".toList (fun _ => false)).take
        (generateAudioStream (fun _ => 0) "hi".toList (fun i => decide (2 ≤ i))).length :=
  tts_cancellation_emits_no_further_frames (fun _ => 0) "hi".toList
    (fun i => decide (2 ≤ i)) 2
    (fun i j hij hi => decide_eq_true (le_trans (of_decide_eq_true hi) hij))
    (by decide)

/-- Modelled from the spec: §4.3 expresses the stream length as
`ceil(duration_ms / 20)` frames with `duration = max(2, words/3)` seconds;
this is that formula, to be compared with the code's `totalFrames`. -/
def specCeilFrameCount (text : List Char) : ℕ :=
  (⌈durationSeconds text * 1000 / 20⌉).toNat

/-- Counterexample to C3 as stated: for the 7-word reply
`"a b c d e f g"`, the code (`Math.floor`) yields 116 frames while the
claimed `ceil` formula demands 117. -/
theorem tts_frame_count_ceil_counterexample :
    (generateAudioStream (fun _ => 0) "a b c d e f g".toList (fun _ => false)).length
      = 116 ∧
    specCeilFrameCount "a b c d e f g".toList = 117 := by
  have hw : wordsCount "a b c d e f g".toList = 7 := by decide
  constructor
  · rw [generateAudioStream_false_length, totalFrames, durationSeconds, hw]
    norm_num
    decide
  · rw [specCeilFrameCount, durationSeconds, hw]
    have hc : ⌈max 2 (((7 : ℕ) : ℚ) / 3) * 1000 / 20⌉ = 117 := by
      rw [Int.ceil_eq_iff]
      norm_num
    rw [hc]
    decide

/-- C3 (amended): absent cancellation the synthesizer yields exactly
`floor(max(2, words/3) * 1000 / 20)` frames — `floor`, not `ceil` — each
of exactly 640 bytes (320 S16LE samples at 16 kHz), and in particular
exactly 100 frames for a 6-word reply. -/
theorem tts_frame_count_floor (g : ℕ → ℤ) (text : List Char) :
    (generateAudioStream g text (fun _ => false)).length
      = (⌊max 2 ((wordsCount text : ℚ) / 3) * 1000 / 20⌋).toNat ∧
    (∀ f ∈ generateAudioStream g text (fun _ => false), f.length = 640) ∧
    (wordsCount text = 6 →
      (generateAudioStream g text (fun _ => false)).length = 100) := by
  refine ⟨generateAudioStream_false_length g text, ?_, ?_⟩
  · intro f hf
    obtain ⟨j, rfl⟩ := genFrames_mem g (fun _ => false) 0 (totalFrames text) f hf
    exact ttsFrame_length g j
  · intro hw
    rw [generateAudioStream_false_length, totalFrames, durationSeconds, hw]
    norm_num
    decide

/-! ## VAD / Recognizer (`src/server/fake-stt.js`)

VAD parameters of `FakeSTT`: `VOICE_THRESHOLD = 0.02` (an RMS bound),
`VOICE_START_FRAMES = 25`, `SILENCE_END_FRAMES = 15`. -/

-- Batteries marks the core rational operations `irreducible`, which
-- blocks `decide` on concrete rational arithmetic; restore the default.
attribute [local semireducible] Rat.add Rat.sub Rat.mul Rat.inv

/-- The hardcoded `responses` table. (The third entry has an apostrophe,
spelled as an explicit character.) -/
def responses : List (List Char) :=
  ["hello".toList,
   "how are you".toList,
   "what".toList ++ ['\''] ++ "s the weather".toList,
   "tell me a joke".toList,
   "goodbye".toList]

/-- The recognizer's mutable state. `voiceBuffer` of the source is
written and cleared but never read, so it is not modelled. -/
structure FakeSTT where
  isProcessing : Bool
  silenceFrames : ℕ
  voiceFrames : ℕ
  partText : List Char
  responseIndex : ℕ
deriving DecidableEq, Repr

/-- The freshly constructed recognizer. -/
def sttInit : FakeSTT := ⟨false, 0, 0, [], 0⟩

/-- `FakeSTT.reset()`: clears processing flag, counters and partial text;
`responseIndex` is kept. -/
def FakeSTT.reset (st : FakeSTT) : FakeSTT :=
  { st with
    isProcessing := false, silenceFrames := 0, voiceFrames := 0,
    partText := [] }

/-- `getNextResponse()`: `responses[responseIndex]`. -/
def getNextResponse (st : FakeSTT) : List Char :=
  responses.getD st.responseIndex []

/-- One normalized sample value `pcmData.readInt16LE(i*2) / 32768.0` of
`calculateRMS`. -/
def sampleVal (b0 b1 : ℕ) : ℚ := (toInt16 (b0 + 256 * b1) : ℚ) / 32768

/-- The loop of `calculateRMS`: `sum += sample * sample` over consecutive
16-bit samples. The embedding recurses two bytes at a time, which agrees
with the indexed loop of the source on the even-length buffers the
pipeline produces. -/
def sumSquares : List ℕ → ℚ
  | b0 :: b1 :: rest => sampleVal b0 b1 * sampleVal b0 b1 + sumSquares rest
  | _ => 0

/-- The mean square `sum / sampleCount` of `calculateRMS`. The source
returns `Math.sqrt` of this; square roots leave ℚ, so the embedding
works with the square throughout. -/
def calculateRMSSq (pcm : List ℕ) : ℚ :=
  sumSquares pcm / ((pcm.length / 2 : ℕ) : ℚ)

/-- The voice gate `rms > VOICE_THRESHOLD` (with `VOICE_THRESHOLD =
0.02`). Since RMS is nonnegative, `√m > 0.02` iff `m > 0.0004 = 1/2500`,
so the comparison is taken on mean squares. -/
def voicedFrame (pcm : List ℕ) : Bool :=
  decide (1 / 2500 < calculateRMSSq pcm)

/-- The recognizer's transcript events: `{type: 'partial'}` /
`{type: 'final'}` objects (timestamps dropped). -/
inductive SttEvent
  | interim (text : List Char)
  | finalized (text : List Char)
deriving DecidableEq, Repr

/-- The body of `FakeSTT.processFrame` after the voice gate: `hasVoice`
is `rms > VOICE_THRESHOLD` for the incoming frame. Returns the emitted
event (if any) and the updated recognizer state. In the source the first
voiced branch returns directly, so the second `if` behaves as an
`else if`. -/
def sttStep (st : FakeSTT) (hasVoice : Bool) : Option SttEvent × FakeSTT :=
  if hasVoice then
    let vf := st.voiceFrames + 1
    if vf = 25 ∧ st.isProcessing = false then
      let t := (getNextResponse st).take 3
      (some (.interim t),
        { st with
          voiceFrames := vf, silenceFrames := 0, isProcessing := true,
          partText := t })
    else if st.isProcessing = true ∧ vf % 10 = 0 then
      let full := getNextResponse st
      let t := full.take (min (vf - 25) full.length)
      (some (.interim t),
        { st with
          voiceFrames := vf, silenceFrames := 0, partText := t })
    else
      (none, { st with voiceFrames := vf, silenceFrames := 0 })
  else
    if st.isProcessing then
      let sf := st.silenceFrames + 1
      if 15 ≤ sf then
        let t := getNextResponse st
        (some (.finalized t),
          FakeSTT.reset { st with responseIndex := (st.responseIndex + 1) % 5 })
      else
        (none, { st with silenceFrames := sf })
    else
      (none, st)

/-- `FakeSTT.processFrame(audioFrame)`: voice gate, then the VAD logic. -/
def FakeSTT.processFrame (st : FakeSTT) (frame : List ℕ) :
    Option SttEvent × FakeSTT :=
  sttStep st (voicedFrame frame)

/-- Driving the recognizer over a sequence of frames, each already
reduced to its voice-gate verdict; collects emitted events in order. -/
def runSTT (st : FakeSTT) : List Bool → List SttEvent × FakeSTT
  | [] => ([], st)
  | v :: rest =>
    let r1 := sttStep st v
    let r2 := runSTT r1.2 rest
    (r1.1.toList ++ r2.1, r2.2)

/-- C10: while `isProcessing` is false, a silent frame (RMS not above the
voice threshold) produces no event and leaves the whole recognizer state
unchanged — in particular `voiceFrames` is not reset, so voiced frames
accumulated across interleaved silence still count toward
`VOICE_START_FRAMES`. -/
theorem stt_silent_frame_is_noop (st : FakeSTT) (frame : List ℕ)
    (hproc : st.isProcessing = false) (hsilent : voicedFrame frame = false) :
    st.processFrame frame = (none, st) := by
  rw [FakeSTT.processFrame, hsilent]
  simp [sttStep, hproc]

set_option maxRecDepth 100000 in
/-- Witness for C10: a recognizer that has already accumulated 10 voiced
frames keeps them, unchanged, across an all-zero (silent) frame. -/
theorem stt_silent_frame_is_noop_witness :
    FakeSTT.processFrame ⟨false, 0, 10, [], 0⟩ (List.replicate 640 0) =
      (none, ⟨false, 0, 10, [], 0⟩) :=
  stt_silent_frame_is_noop ⟨false, 0, 10, [], 0⟩ (List.replicate 640 0) rfl
    (by decide)

/-- Per-utterance well-formedness of an event stream: up to the first
Final, events are Partials whose texts are prefixes of `full`, with
lengths at least `lb` and non-decreasing; the first Final (if any)
carries exactly `full`. Nothing is claimed past the first Final. -/
def UtterOK (full : List Char) : ℕ → List SttEvent → Prop
  | _, [] => True
  | lb, .interim u :: rest =>
    (∃ k, u = full.take k) ∧ lb ≤ u.length ∧ UtterOK full u.length rest
  | _, .finalized t :: _ => t = full

/-- Weakening the lower bound preserves `UtterOK`. -/
theorem utterOK_mono (full : List Char) :
    ∀ (evs : List SttEvent) (lb lb' : ℕ), lb' ≤ lb →
      UtterOK full lb evs → UtterOK full lb' evs
  | [], _, _, _, _ => trivial
  | .interim _ :: _, _, _, h, ⟨hp, hb, hr⟩ => ⟨hp, le_trans h hb, hr⟩
  | .finalized _ :: _, _, _, _, ht => ht

/-- The lower bound on the next partial's length carried by the
recognizer state: the last emitted partial for this utterance has length
`min (max 3 (voiceFrames - 25)) |full|` once processing has started. -/
def curBound (st : FakeSTT) : ℕ :=
  if st.isProcessing then
    min (max 3 (st.voiceFrames - 25)) (getNextResponse st).length
  else 0

/-- Every run of the recognizer from a state whose voiced counter is
consistent with its processing flag produces a per-utterance
well-formed event stream. -/
theorem runSTT_utterOK :
    ∀ (inputs : List Bool) (st : FakeSTT),
      (st.isProcessing = true → 25 ≤ st.voiceFrames) →
      UtterOK (getNextResponse st) (curBound st) (runSTT st inputs).1 := by
  intro inputs
  induction inputs with
  | nil => intro st _; trivial
  | cons v rest ih =>
    intro st hinv
    cases v with
    | true =>
      by_cases h1 : st.voiceFrames + 1 = 25 ∧ st.isProcessing = false
      · -- first partial: `voiceFrames` reaches 25 while not processing
        have hb : curBound st = 0 := by simp [curBound, h1.2]
        have hstep : sttStep st true =
            (some (.interim ((getNextResponse st).take 3)),
             { st with
               voiceFrames := st.voiceFrames + 1, silenceFrames := 0,
               isProcessing := true,
               partText := (getNextResponse st).take 3 }) := by
          simp [sttStep, h1]
        have ihs := ih { st with
            voiceFrames := st.voiceFrames + 1, silenceFrames := 0,
            isProcessing := true,
            partText := (getNextResponse st).take 3 }
          (fun _ => le_of_eq h1.1.symm)
        simp only [runSTT, hstep, Option.toList_some, List.cons_append,
          List.nil_append]
        refine ⟨⟨3, rfl⟩, by omega, ?_⟩
        have hcb : curBound { st with
            voiceFrames := st.voiceFrames + 1, silenceFrames := 0,
            isProcessing := true,
            partText := (getNextResponse st).take 3 } =
            ((getNextResponse st).take 3).length := by
          simp [curBound, getNextResponse, List.length_take]
          omega
        rw [hcb] at ihs
        simpa [getNextResponse] using ihs
      · by_cases h2 : st.isProcessing = true ∧ (st.voiceFrames + 1) % 10 = 0
        · -- progressive partial at a multiple of 10 voiced frames
          have hvf : 25 ≤ st.voiceFrames := hinv h2.1
          have hvf30 : 30 ≤ st.voiceFrames + 1 := by omega
          set L := (getNextResponse st).length with hL
          have hstep : sttStep st true =
              (some (.interim ((getNextResponse st).take
                 (min (st.voiceFrames + 1 - 25) L))),
               { st with
                 voiceFrames := st.voiceFrames + 1, silenceFrames := 0,
                 partText := (getNextResponse st).take
                   (min (st.voiceFrames + 1 - 25) L) }) := by
            simp [sttStep, h1, h2, hL]
          have ihs := ih { st with
              voiceFrames := st.voiceFrames + 1, silenceFrames := 0,
              partText := (getNextResponse st).take
                (min (st.voiceFrames + 1 - 25) L) }
            (fun _ => Nat.le_succ_of_le hvf)
          simp only [runSTT, hstep, Option.toList_some, List.cons_append,
            List.nil_append]
          have hlen : ((getNextResponse st).take
              (min (st.voiceFrames + 1 - 25) L)).length =
              min (st.voiceFrames + 1 - 25) L := by
            simp [List.length_take, hL]
          refine ⟨⟨min (st.voiceFrames + 1 - 25) L, rfl⟩, ?_, ?_⟩
          · rw [hlen]
            simp [curBound, h2.1, hL]
            omega
          · have hcb : curBound { st with
                voiceFrames := st.voiceFrames + 1, silenceFrames := 0,
                partText := (getNextResponse st).take
                  (min (st.voiceFrames + 1 - 25) L) } =
                min (st.voiceFrames + 1 - 25) L := by
              simp [curBound, h2.1, getNextResponse, hL]
              omega
            rw [hcb] at ihs
            rw [hlen]
            simpa [getNextResponse, hL] using ihs
        · -- voiced frame with no emission
          have hstep : sttStep st true =
              (none, { st with
                voiceFrames := st.voiceFrames + 1, silenceFrames := 0 }) := by
            simp [sttStep, h1, h2]
            intro h24
            by_contra hf
            exact h1 ⟨by omega, by simpa using hf⟩
          have ihs := ih { st with
              voiceFrames := st.voiceFrames + 1, silenceFrames := 0 }
            (fun hp => Nat.le_succ_of_le (hinv hp))
          simp only [runSTT, hstep, Option.toList_none, List.nil_append]
          refine utterOK_mono _ _ _ _ ?_ (by simpa [getNextResponse] using ihs)
          by_cases hp : st.isProcessing = true
          · simp [curBound, hp, getNextResponse]
            omega
          · simp [curBound, hp]
    | false =>
      by_cases hp : st.isProcessing = true
      · by_cases h3 : 15 ≤ st.silenceFrames + 1
        · -- enough silence: the Final is emitted, closing the utterance
          have hstep : sttStep st false =
              (some (.finalized (getNextResponse st)),
               FakeSTT.reset
                 { st with responseIndex := (st.responseIndex + 1) % 5 }) := by
            simp [sttStep, hp, h3]
          simp only [runSTT, hstep, Option.toList_some, List.cons_append,
            List.nil_append]
          show getNextResponse st = getNextResponse st
          rfl
        · -- silence below the threshold: only the silence counter moves
          have hstep : sttStep st false =
              (none, { st with silenceFrames := st.silenceFrames + 1 }) := by
            simp [sttStep, hp, h3]
          simp only [runSTT, hstep, Option.toList_none, List.nil_append]
          exact ih { st with silenceFrames := st.silenceFrames + 1 } hinv
      · -- not processing: the recognizer state is untouched
        have hstep : sttStep st false = (none, st) := by
          simp [sttStep, hp]
        simp only [runSTT, hstep, Option.toList_none, List.nil_append]
        exact ih st hinv

/-- Splitting a well-formed stream at its first Final: everything before
it is a Partial, lengths are bounded below by `lb` and pairwise
non-decreasing, every text is a prefix of `full`, and the Final's text is
exactly `full`. -/
theorem utterOK_decompose (full : List Char) :
    ∀ (pre : List SttEvent) (lb : ℕ) (t : List Char) (rest : List SttEvent),
      UtterOK full lb (pre ++ .finalized t :: rest) →
      (∀ u, SttEvent.finalized u ∉ pre) →
      t = full ∧
      ∃ ts : List (List Char), pre = ts.map SttEvent.interim ∧
        (∀ u ∈ ts, lb ≤ u.length) ∧
        List.Pairwise (fun a b => a.length ≤ b.length) ts ∧
        (∀ u ∈ ts, ∃ k, u = full.take k) := by
  intro pre
  induction pre with
  | nil =>
    intro lb t rest h _
    exact ⟨h, [], rfl, by simp, by simp, by simp⟩
  | cons e pre ih =>
    intro lb t rest h hn
    cases e with
    | finalized u => exact absurd (List.mem_cons_self _ _) (hn u)
    | interim u =>
      obtain ⟨⟨k, hk⟩, hlb, hrest⟩ := h
      obtain ⟨ht, ts, hmap, hbound, hpw, hpre⟩ :=
        ih u.length t rest hrest (fun v hv => hn v (List.mem_cons_of_mem _ hv))
      refine ⟨ht, u :: ts, by simp [hmap], ?_, ?_, ?_⟩
      · exact fun v hv => by
          rcases List.mem_cons.1 hv with rfl | hv
          · exact hlb
          · exact le_trans hlb (hbound v hv)
      · exact List.pairwise_cons.2 ⟨fun v hv => hbound v hv, hpw⟩
      · exact fun v hv => by
          rcases List.mem_cons.1 hv with rfl | hv
          · exact ⟨k, hk⟩
          · exact hpre v hv

/-- C6: for every run of the recognizer from its initial state, the
events up to (and including) the first Final have shape
`Partial* Final`: every earlier event is a Partial, the partial texts
have monotonically non-decreasing lengths, and each partial text is a
prefix (`take`) of the Final's text. -/
theorem stt_utterance_events_shape (inputs : List Bool) (pre : List SttEvent)
    (t : List Char) (rest : List SttEvent)
    (hsplit : (runSTT sttInit inputs).1 = pre ++ SttEvent.finalized t :: rest)
    (hnofin : ∀ u, SttEvent.finalized u ∉ pre) :
    ∃ ts : List (List Char),
      pre = ts.map SttEvent.interim ∧
      List.Pairwise (fun a b => a.length ≤ b.length) ts ∧
      ∀ u ∈ ts, ∃ k, u = t.take k := by
  have h := runSTT_utterOK inputs sttInit (by intro h; cases h)
  rw [hsplit] at h
  obtain ⟨ht, ts, hmap, _, hpw, hpre⟩ :=
    utterOK_decompose (getNextResponse sttInit) pre (curBound sttInit) t rest h
      hnofin
  subst ht
  exact ⟨ts, hmap, hpw, hpre⟩

/-- Witness for C6: thirty voiced frames then fifteen silent frames give
the events `Partial "hel"`, `Partial "hello"`, `Final "hello"`: partials
only before the final, lengths 3 ≤ 5, both prefixes of the final text. -/
theorem stt_utterance_events_shape_witness :
    ∃ ts : List (List Char),
      [SttEvent.interim "hel".toList, SttEvent.interim "hello".toList] =
        ts.map SttEvent.interim ∧
      List.Pairwise (fun a b => a.length ≤ b.length) ts ∧
      ∀ u ∈ ts, ∃ k, u = "hello".toList.take k :=
  stt_utterance_events_shape (List.replicate 30 true ++ List.replicate 15 false)
    [SttEvent.interim "hel".toList, SttEvent.interim "hello".toList]
    "hello".toList [] (by decide) (fun u => by simp)

/-! ## Frame Normalizer (`src/server/audio-processor.js`)

Target format constants of `AudioProcessor`: 16 000 Hz, mono,
20 ms frames of `frameSize = 320` samples, `bytesPerFrame = 640`. -/

/-- The normalizer's state: the residual byte buffer `this.buffer`. -/
structure AudioProcessor where
  buffer : List ℕ
deriving DecidableEq, Repr

/-- The loop `for (let i = start; i < start + n; i++)` collecting `n`
fallible values; any failed buffer access aborts the call, as the thrown
`RangeError` would. -/
def collectSamples (f : ℕ → Option ℤ) : ℕ → ℕ → Option (List ℤ)
  | _, 0 => some []
  | start, n + 1 => do
    let v ← f start
    let rest ← collectSamples f (start + 1) n
    pure (v :: rest)

/-- One output sample of `simpleResample`: linear interpolation between
the source sample below rational position `srcIndex = i*inputRate/outputRate`
and the next one, clamped by `srcIndexCeil = min(srcIndexFloor + 1,
inputSamples - 1)`. The clamped byte offset `srcIndexCeil * 2` equals the
integer `min(2*(srcIndexFloor+1), input.length - 2)` even when the byte
length is odd, and is negative on empty input, where the read throws.
`fraction = srcIndex - srcIndexFloor = (i*inputRate mod outputRate)/outputRate`. -/
def resampleSample (input : List ℕ) (inputRate outputRate i : ℕ) : Option ℤ := do
  let sFloor := i * inputRate / outputRate
  let s1 ← readInt16LE input (2 * sFloor)
  let s2 ← readInt16LE input (min (2 * (sFloor + 1) : ℤ) ((input.length : ℤ) - 2))
  let fraction : ℚ := ((i * inputRate % outputRate : ℕ) : ℚ) / (outputRate : ℚ)
  pure (jsRound ((s1 : ℚ) + ((s2 - s1 : ℤ) : ℚ) * fraction))

/-- `AudioProcessor.simpleResample(input, inputRate, outputRate)`:
`outputSamples = Math.floor(inputSamples * outputRate / inputRate)` with
`inputSamples = input.length / 2` (exact, possibly fractional), each
sample interpolated and written back with `writeInt16LE`. -/
def simpleResample (input : List ℕ) (inputRate outputRate : ℕ) :
    Option (List ℕ) :=
  (collectSamples (resampleSample input inputRate outputRate) 0
      (input.length * outputRate / (2 * inputRate))).map
    (fun ss => ss.flatMap writeInt16LE)

/-- The inner loop of `convertToMono`: `sum += readInt16LE((i*channels +
ch) * 2)` over `ch < c`. -/
def channelSum (input : List ℕ) (channels i : ℕ) : ℕ → Option ℤ
  | 0 => some 0
  | c + 1 => do
    let s ← channelSum input channels i c
    let v ← readInt16LE input (((i * channels + c) * 2 : ℕ) : ℤ)
    pure (s + v)

/-- One output sample of `convertToMono`: `Math.round(sum / channels)`. -/
def monoSample (input : List ℕ) (channels i : ℕ) : Option ℤ :=
  (channelSum input channels i channels).map
    (fun s => jsRound ((s : ℚ) / (channels : ℚ)))

/-- `AudioProcessor.convertToMono(input, channels)`: `sampleCount =
input.length / (2*channels)` (exact); `Buffer.alloc(sampleCount * 2)`
throws unless that size `input.length / channels` is an integer; the
loop `i < sampleCount` runs `⌈sampleCount⌉` times. -/
def convertToMono (input : List ℕ) (channels : ℕ) : Option (List ℕ) :=
  if channels ∣ input.length then
    (collectSamples (monoSample input channels) 0
        ((input.length + 2 * channels - 1) / (2 * channels))).map
      (fun ss => ss.flatMap writeInt16LE)
  else none

/-- The loop `while (buffer.length >= bytesPerFrame)` shifting 640-byte
frames off the front. The loop runs at most `buffer.length` times, which
the embedding makes explicit as structural fuel. -/
def extractFramesAux : ℕ → List ℕ → List (List ℕ) × List ℕ
  | 0, buf => ([], buf)
  | fuel + 1, buf =>
    if 640 ≤ buf.length then
      let r := extractFramesAux fuel (buf.drop 640)
      (buf.take 640 :: r.1, r.2)
    else ([], buf)

/-- Frame extraction from the residual buffer. -/
def extractFrames (buf : List ℕ) : List (List ℕ) × List ℕ :=
  extractFramesAux buf.length buf

/-- The resample/downmix front half of `processAudioData`: the bytes
appended to the residual buffer. -/
def normalizeData (audioData : List ℕ) (sourceSampleRate sourceChannels : ℕ) :
    Option (List ℕ) := do
  let d1 ← if sourceSampleRate ≠ 16000 then
      simpleResample audioData sourceSampleRate 16000
    else pure audioData
  if 1 < sourceChannels then convertToMono d1 sourceChannels else pure d1

/-- `AudioProcessor.processAudioData(audioData, sourceSampleRate,
sourceChannels)`: resample if the rate differs from 16 000, downmix if
more than one channel, append to the residual, then extract every full
640-byte frame and keep the remainder. -/
def processAudioData (st : AudioProcessor) (audioData : List ℕ)
    (sourceSampleRate sourceChannels : ℕ) :
    Option (List (List ℕ) × AudioProcessor) := do
  let d ← normalizeData audioData sourceSampleRate sourceChannels
  let r := extractFrames (st.buffer ++ d)
  pure (r.1, ⟨r.2⟩)

/-- Fuel does not matter once it covers the buffer length. -/
theorem extractFramesAux_fuel :
    ∀ (f1 f2 : ℕ) (buf : List ℕ), buf.length ≤ f1 → buf.length ≤ f2 →
      extractFramesAux f1 buf = extractFramesAux f2 buf := by
  intro f1
  induction f1 with
  | zero =>
    intro f2 buf h1 _
    have hb : buf = [] := List.eq_nil_of_length_eq_zero (Nat.le_zero.mp h1)
    subst hb
    cases f2 <;> simp [extractFramesAux]
  | succ n ih =>
    intro f2 buf h1 h2
    cases f2 with
    | zero =>
      have hb : buf = [] := List.eq_nil_of_length_eq_zero (Nat.le_zero.mp h2)
      subst hb
      simp [extractFramesAux]
    | succ m =>
      by_cases h : 640 ≤ buf.length
      · simp only [extractFramesAux, if_pos h]
        rw [ih m (buf.drop 640) (by simp only [List.length_drop]; omega)
          (by simp only [List.length_drop]; omega)]
      · simp [extractFramesAux, h]

/-- Unfolding one iteration of the frame-extraction loop. -/
theorem extractFrames_cons (buf : List ℕ) (h : 640 ≤ buf.length) :
    extractFrames buf =
      (buf.take 640 :: (extractFrames (buf.drop 640)).1,
       (extractFrames (buf.drop 640)).2) := by
  rw [extractFrames]
  obtain ⟨m, hm⟩ : ∃ m, buf.length = m + 1 := ⟨buf.length - 1, by omega⟩
  rw [hm]
  simp only [extractFramesAux, if_pos (hm ▸ h)]
  rw [extractFrames,
    extractFramesAux_fuel m (buf.drop 640).length (buf.drop 640)
      (by simp only [List.length_drop]; omega) le_rfl]
  rw [if_pos h]

/-- A buffer shorter than one frame is left untouched. -/
theorem extractFrames_of_lt (buf : List ℕ) (h : buf.length < 640) :
    extractFrames buf = ([], buf) := by
  rw [extractFrames]
  cases hb : buf.length with
  | zero => simp [extractFramesAux]
  | succ m => simp [extractFramesAux, show ¬ 640 ≤ buf.length from by omega]

/-- What the frame-extraction loop computes: `⌊length/640⌋` frames of
exactly 640 bytes and the remainder of the buffer as residual. -/
theorem extractFrames_spec (buf : List ℕ) :
    (extractFrames buf).1.length = buf.length / 640 ∧
    (∀ f ∈ (extractFrames buf).1, f.length = 640) ∧
    (extractFrames buf).2 = buf.drop (640 * (buf.length / 640)) := by
  suffices H : ∀ (n : ℕ) (b : List ℕ), b.length ≤ n →
      (extractFrames b).1.length = b.length / 640 ∧
      (∀ f ∈ (extractFrames b).1, f.length = 640) ∧
      (extractFrames b).2 = b.drop (640 * (b.length / 640)) from
    H buf.length buf le_rfl
  intro n
  induction n with
  | zero =>
    intro b hb
    have h : b.length < 640 := by omega
    rw [extractFrames_of_lt b h]
    refine ⟨by simp [Nat.div_eq_of_lt h], by simp, ?_⟩
    rw [Nat.div_eq_of_lt h]
    simp
  | succ n ih =>
    intro b hb
    by_cases h : 640 ≤ b.length
    · have hd : (b.drop 640).length ≤ n := by
        simp only [List.length_drop]; omega
      obtain ⟨ih1, ih2, ih3⟩ := ih (b.drop 640) hd
      rw [extractFrames_cons b h]
      refine ⟨?_, ?_, ?_⟩
      · simp only [List.length_cons, ih1, List.length_drop]
        omega
      · intro f hf
        rcases List.mem_cons.1 hf with rfl | hf
        · simp [List.length_take]; omega
        · exact ih2 f hf
      · show (extractFrames (b.drop 640)).2 = _
        rw [ih3, List.drop_drop, List.length_drop]
        congr 1
        omega
    · rw [extractFrames_of_lt b (by omega)]
      refine ⟨by simp [Nat.div_eq_of_lt (by omega : b.length < 640)], by simp, ?_⟩
      rw [Nat.div_eq_of_lt (by omega : b.length < 640)]
      simp

/-- Splitting the extraction of a concatenation at a block boundary:
extracting from `a ++ b` equals extracting from `a`, then extracting
from the residual of `a` followed by `b`. -/
theorem extractFrames_append (a b : List ℕ) :
    extractFrames (a ++ b) =
      ((extractFrames a).1 ++ (extractFrames ((extractFrames a).2 ++ b)).1,
       (extractFrames ((extractFrames a).2 ++ b)).2) := by
  suffices H : ∀ (n : ℕ) (a b : List ℕ), a.length ≤ n →
      extractFrames (a ++ b) =
        ((extractFrames a).1 ++ (extractFrames ((extractFrames a).2 ++ b)).1,
         (extractFrames ((extractFrames a).2 ++ b)).2) from
    H a.length a b le_rfl
  intro n
  induction n with
  | zero =>
    intro a b ha
    have hb : a = [] := List.eq_nil_of_length_eq_zero (Nat.le_zero.mp ha)
    subst hb
    rw [extractFrames_of_lt [] (by simp)]
    simp
  | succ n ih =>
    intro a b ha
    by_cases h : 640 ≤ a.length
    · have hab : 640 ≤ (a ++ b).length := by simp only [List.length_append]; omega
      rw [extractFrames_cons (a ++ b) hab, extractFrames_cons a h,
        List.take_append_of_le_length h, List.drop_append_of_le_length h]
      rw [ih (a.drop 640) b (by simp only [List.length_drop]; omega)]
      simp
    · rw [extractFrames_of_lt a (by omega)]
      simp

/-- C9, evaluated at the failing input: a single-byte (odd-length) block
at 16 kHz mono is appended to the residual whole — the trailing odd byte
is NOT truncated (the residual becomes the odd-length `[1]`), no counter
is incremented (the normalizer state holds nothing but the residual
buffer; the source class has no malformed-block counter at all), and the
call returns normally. -/
theorem oddByte_retained_not_truncated :
    processAudioData ⟨[]⟩ [1] 16000 1 = some ([], ⟨[1]⟩) := by decide

/-- Counterexample to C5 as stated: the even-length 6-byte block at
16 kHz with 2 channels makes `convertToMono` read past the end of the
input (Node throws `ERR_OUT_OF_RANGE`), so the push fails instead of
emitting `⌊(0+resampled)/640⌋ = 0` frames and retaining the remainder. -/
theorem frameNormalizer_even_block_counterexample :
    processAudioData ⟨[]⟩ [0, 0, 0, 0, 0, 0] 16000 2 = none := by decide

/-- C5 (amended): whenever a push completes (the resample/downmix
pipeline raises no out-of-range access), the Frame Normalizer emits
exactly `⌊(residual + processed bytes) / 640⌋` frames of exactly 640
bytes each, and retains exactly the remainder, which is strictly smaller
than 640 bytes. -/
theorem frameNormalizer_push_invariant (st : AudioProcessor) (b : List ℕ)
    (rate ch : ℕ) (frames : List (List ℕ)) (st' : AudioProcessor)
    (h : processAudioData st b rate ch = some (frames, st')) :
    ∃ d, normalizeData b rate ch = some d ∧
      frames.length = (st.buffer.length + d.length) / 640 ∧
      (∀ f ∈ frames, f.length = 640) ∧
      st'.buffer.length = (st.buffer.length + d.length) % 640 ∧
      st'.buffer.length < 640 := by
  cases hd : normalizeData b rate ch with
  | none => rw [processAudioData, hd] at h; cases h
  | some d =>
    rw [processAudioData, hd] at h
    simp only [Option.bind_some, Option.some.injEq, Prod.mk.injEq] at h
    obtain ⟨rfl, rfl⟩ := h
    obtain ⟨h1, h2, h3⟩ := extractFrames_spec (st.buffer ++ d)
    refine ⟨d, rfl, ?_, h2, ?_, ?_⟩
    · rw [h1]; simp [List.length_append]
    · show (extractFrames (st.buffer ++ d)).2.length = _
      rw [h3]
      simp only [List.length_drop, List.length_append]
      omega
    · show (extractFrames (st.buffer ++ d)).2.length < 640
      rw [h3]
      simp only [List.length_drop, List.length_append]
      omega

set_option maxRecDepth 100000 in
/-- Witness for C5 (amended): pushing 1340 zero bytes at 16 kHz mono
into an empty normalizer emits `⌊1340/640⌋ = 2` frames of 640 bytes and
retains the 60-byte remainder. -/
theorem frameNormalizer_push_invariant_witness :
    ∃ d, normalizeData (List.replicate 1340 0) 16000 1 = some d ∧
      (List.replicate 2 (List.replicate 640 (0 : ℕ))).length =
        ((AudioProcessor.mk []).buffer.length + d.length) / 640 ∧
      (∀ f ∈ List.replicate 2 (List.replicate 640 (0 : ℕ)), f.length = 640) ∧
      (AudioProcessor.mk (List.replicate 60 0)).buffer.length =
        ((AudioProcessor.mk []).buffer.length + d.length) % 640 ∧
      (AudioProcessor.mk (List.replicate 60 0)).buffer.length < 640 :=
  frameNormalizer_push_invariant ⟨[]⟩ (List.replicate 1340 0) 16000 1
    (List.replicate 2 (List.replicate 640 0)) ⟨List.replicate 60 0⟩ (by decide)

/-- First block of the associativity counterexample: one zero sample at
8 kHz. -/
def ceB1 : List ℕ := [0, 0]

/-- Second block: 160 samples of value 100 at 8 kHz. -/
def ceB2 : List ℕ := (List.replicate 160 ([100, 0] : List ℕ)).flatten

/-- The frames emitted by two consecutive pushes of `ceB1` then `ceB2`. -/
def c7SplitFrames : Option (List (List ℕ)) := do
  let r1 ← processAudioData ⟨[]⟩ ceB1 8000 1
  let r2 ← processAudioData r1.2 ceB2 8000 1
  pure (r1.1 ++ r2.1)

/-- The frames emitted by one combined push of `ceB1 ++ ceB2`. -/
def c7CombinedFrames : Option (List (List ℕ)) :=
  (processAudioData ⟨[]⟩ (ceB1 ++ ceB2) 8000 1).map (fun r => r.1)

set_option maxRecDepth 100000 in
/-- Counterexample to C7 as stated: at a source rate of 8 kHz (so the
linear-interpolation resampler runs), pushing `ceB1` then `ceB2` emits
one frame whose second sample is 0 (interpolation clamps at the block
edge), while the combined push emits one frame whose second sample is 50
(interpolation across the former boundary): both pushes succeed, but the
concatenated frames differ. -/
theorem push_associativity_counterexample :
    (c7SplitFrames.isSome = true ∧ c7CombinedFrames.isSome = true) ∧
    c7SplitFrames ≠ c7CombinedFrames := by decide

/-- Collection only looks at the generator inside the collected range. -/
theorem collectSamples_congr (f g : ℕ → Option ℤ) :
    ∀ (n start : ℕ), (∀ i, start ≤ i → i < start + n → f i = g i) →
      collectSamples f start n = collectSamples g start n := by
  intro n
  induction n with
  | zero => intro start _; rfl
  | succ n ih =>
    intro start h
    simp only [collectSamples]
    rw [h start le_rfl (by omega),
      ih (start + 1) (fun i hi1 hi2 => h i (by omega) (by omega))]

/-- Splitting the collection loop at an intermediate count. -/
theorem collectSamples_add (f : ℕ → Option ℤ) :
    ∀ (m k start : ℕ),
      collectSamples f start (m + k) =
        (do
          let a ← collectSamples f start m
          let b ← collectSamples f (start + m) k
          pure (a ++ b)) := by
  intro m
  induction m with
  | zero =>
    intro k start
    simp [collectSamples]
  | succ m ih =>
    intro k start
    rw [Nat.succ_add]
    simp only [collectSamples]
    rw [ih k (start + 1)]
    rw [show start + (m + 1) = start + 1 + m from by omega]
    cases f start <;> simp
    cases collectSamples f (start + 1) m <;> simp
    cases collectSamples f (start + 1 + m) k <;> simp

/-- Re-indexing the collection loop to start at zero. -/
theorem collectSamples_shift (f : ℕ → Option ℤ) (k : ℕ) :
    ∀ (n s : ℕ),
      collectSamples f (k + s) n = collectSamples (fun i => f (k + i)) s n := by
  intro n
  induction n with
  | zero => intro s; rfl
  | succ n ih =>
    intro s
    simp only [collectSamples]
    rw [show k + s + 1 = k + (s + 1) from by omega, ih (s + 1)]

/-- A collection of values that all exist exists. -/
theorem collectSamples_isSome (f : ℕ → Option ℤ) :
    ∀ (n start : ℕ), (∀ i, start ≤ i → i < start + n → ∃ v, f i = some v) →
      ∃ l, collectSamples f start n = some l := by
  intro n
  induction n with
  | zero => intro start _; exact ⟨[], rfl⟩
  | succ n ih =>
    intro start h
    obtain ⟨v, hv⟩ := h start le_rfl (by omega)
    obtain ⟨l, hl⟩ := ih (start + 1) (fun i hi1 hi2 => h i (by omega) (by omega))
    exact ⟨v :: l, by simp [collectSamples, hv, hl]⟩

/-- An in-bounds 16-bit read succeeds. -/
theorem readInt16LE_isSome (buf : List ℕ) (off : ℤ)
    (h0 : 0 ≤ off) (h2 : off + 2 ≤ (buf.length : ℤ)) :
    ∃ v, readInt16LE buf off = some v :=
  ⟨_, by rw [readInt16LE, if_pos ⟨h0, h2⟩]⟩

/-- A read that stays inside the left half of a concatenation. -/
theorem readInt16LE_append_left (x y : List ℕ) (off : ℤ)
    (h0 : 0 ≤ off) (h2 : off + 2 ≤ (x.length : ℤ)) :
    readInt16LE (x ++ y) off = readInt16LE x off := by
  rw [readInt16LE, readInt16LE,
    if_pos ⟨h0, by simp only [List.length_append]; push_cast; omega⟩,
    if_pos ⟨h0, h2⟩]
  have hb1 : off.toNat < x.length := by omega
  have hb2 : off.toNat + 1 < x.length := by omega
  rw [List.getD_append _ _ _ _ hb1, List.getD_append _ _ _ _ hb2]

/-- A read at an offset past the left half of a concatenation. -/
theorem readInt16LE_append_right (x y : List ℕ) (t : ℤ) (h0 : 0 ≤ t) :
    readInt16LE (x ++ y) ((x.length : ℤ) + t) = readInt16LE y t := by
  by_cases hc : 0 ≤ t ∧ t + 2 ≤ (y.length : ℤ)
  · rw [readInt16LE, readInt16LE, if_pos hc,
      if_pos ⟨by omega, by simp only [List.length_append]; push_cast; omega⟩]
    have ht : ((x.length : ℤ) + t).toNat = x.length + t.toNat := by omega
    rw [ht]
    rw [List.getD_append_right _ _ _ _ (by omega),
      show x.length + t.toNat + 1 = x.length + (t.toNat + 1) from by omega,
      List.getD_append_right _ _ _ _ (by omega)]
    simp
  · rw [readInt16LE, readInt16LE, if_neg hc,
      if_neg (by simp only [List.length_append]; push_cast; omega)]

/-- The channel loop for sample `i` reads only within the left half of a
concatenation when block `i` lies inside it. -/
theorem channelSum_append_left (x y : List ℕ) (ch i : ℕ)
    (h : (i + 1) * (2 * ch) ≤ x.length) :
    ∀ c, c ≤ ch → channelSum (x ++ y) ch i c = channelSum x ch i c := by
  intro c
  induction c with
  | zero => intro _; rfl
  | succ c ih =>
    intro hc
    have key : (i * ch + c) * 2 + 2 ≤ (i + 1) * (2 * ch) := by nlinarith
    simp only [channelSum]
    rw [ih (by omega),
      readInt16LE_append_left x y _ (Int.natCast_nonneg _) (by push_cast; omega)]

/-- The channel loop for sample `q + i` over a concatenation whose left
half holds exactly `q` sample blocks reads only the right half. -/
theorem channelSum_append_shift (x y : List ℕ) (ch i q : ℕ)
    (hx : x.length = 2 * ch * q) :
    ∀ c, channelSum (x ++ y) ch (q + i) c = channelSum y ch i c := by
  intro c
  induction c with
  | zero => rfl
  | succ c ih =>
    simp only [channelSum]
    rw [ih]
    have hoff : ((((q + i) * ch + c) * 2 : ℕ) : ℤ) =
        (x.length : ℤ) + (((i * ch + c) * 2 : ℕ) : ℤ) := by
      push_cast [hx]; ring
    rw [hoff, readInt16LE_append_right x y _ (Int.natCast_nonneg _)]

/-- Downmixed sample `i` of a concatenation, inside the left half. -/
theorem monoSample_append_left (x y : List ℕ) (ch i : ℕ)
    (h : (i + 1) * (2 * ch) ≤ x.length) :
    monoSample (x ++ y) ch i = monoSample x ch i := by
  rw [monoSample, monoSample, channelSum_append_left x y ch i h ch le_rfl]

/-- Downmixed sample `q + i` of a concatenation, inside the right half. -/
theorem monoSample_append_shift (x y : List ℕ) (ch i q : ℕ)
    (hx : x.length = 2 * ch * q) :
    monoSample (x ++ y) ch (q + i) = monoSample y ch i := by
  rw [monoSample, monoSample, channelSum_append_shift x y ch i q hx ch]

/-- The channel loop succeeds while its reads stay in bounds. -/
theorem channelSum_isSome (x : List ℕ) (ch i : ℕ)
    (h : (i + 1) * (2 * ch) ≤ x.length) :
    ∀ c, c ≤ ch → ∃ v, channelSum x ch i c = some v := by
  intro c
  induction c with
  | zero => intro _; exact ⟨0, rfl⟩
  | succ c ih =>
    intro hc
    obtain ⟨s, hs⟩ := ih (by omega)
    have key : (i * ch + c) * 2 + 2 ≤ (i + 1) * (2 * ch) := by nlinarith
    obtain ⟨v, hv⟩ :=
      readInt16LE_isSome x (((i * ch + c) * 2 : ℕ) : ℤ) (Int.natCast_nonneg _)
        (by push_cast; omega)
    refine ⟨s + v, ?_⟩
    simp only [channelSum, hs, Option.some_bind]
    rw [hv]
    rfl

/-- A downmixed sample inside the buffer succeeds. -/
theorem monoSample_isSome (x : List ℕ) (ch i : ℕ)
    (h : (i + 1) * (2 * ch) ≤ x.length) :
    ∃ v, monoSample x ch i = some v := by
  obtain ⟨s, hs⟩ := channelSum_isSome x ch i h ch le_rfl
  exact ⟨_, by rw [monoSample, hs]; rfl⟩

/-- The iteration count `⌈len / (2·ch)⌉` of `convertToMono` on an
aligned buffer of `q` sample blocks. -/
theorem monoIterCount (len ch q : ℕ) (hch : 0 < ch) (hlen : len = 2 * ch * q) :
    (len + 2 * ch - 1) / (2 * ch) = q := by
  rw [hlen,
    show 2 * ch * q + 2 * ch - 1 = 2 * ch * q + (2 * ch - 1) from by omega,
    Nat.mul_add_div (by omega)]
  simp [Nat.div_eq_of_lt (by omega : 2 * ch - 1 < 2 * ch)]

/-- Downmixing an aligned buffer succeeds. -/
theorem convertToMono_isSome (x : List ℕ) (ch q : ℕ) (hch : 0 < ch)
    (hx : x.length = 2 * ch * q) :
    ∃ d, convertToMono x ch = some d := by
  have hdvd : ch ∣ x.length := ⟨2 * q, by rw [hx]; ring⟩
  rw [convertToMono, if_pos hdvd, monoIterCount x.length ch q hch hx]
  obtain ⟨l, hl⟩ := collectSamples_isSome (monoSample x ch) q 0
    (fun i _ h2 => monoSample_isSome x ch i (by
      rw [hx]
      calc (i + 1) * (2 * ch) ≤ q * (2 * ch) :=
            Nat.mul_le_mul_right _ (by omega)
        _ = 2 * ch * q := by ring))
  exact ⟨_, by rw [hl]; rfl⟩

/-- Downmixing distributes over concatenation at an aligned boundary. -/
theorem convertToMono_append (x y : List ℕ) (ch q : ℕ) (hch : 0 < ch)
    (hx : x.length = 2 * ch * q) :
    convertToMono (x ++ y) ch =
      (do
        let a ← convertToMono x ch
        let b ← convertToMono y ch
        pure (a ++ b)) := by
  have hdx : ch ∣ x.length := ⟨2 * q, by rw [hx]; ring⟩
  by_cases hdy : ch ∣ y.length
  · have hdxy : ch ∣ (x ++ y).length := by
      rw [List.length_append]
      exact Nat.dvd_add hdx hdy
    simp only [convertToMono, if_pos hdxy, if_pos hdx, if_pos hdy]
    have hiterxy : ((x ++ y).length + 2 * ch - 1) / (2 * ch) =
        q + (y.length + 2 * ch - 1) / (2 * ch) := by
      rw [List.length_append, hx,
        show 2 * ch * q + y.length + 2 * ch - 1 =
          2 * ch * q + (y.length + 2 * ch - 1) from by omega,
        Nat.mul_add_div (by omega)]
    rw [hiterxy, collectSamples_add, monoIterCount x.length ch q hch hx]
    have hleft : collectSamples (monoSample (x ++ y) ch) 0 q =
        collectSamples (monoSample x ch) 0 q :=
      collectSamples_congr _ _ q 0 (fun i _ h2 =>
        monoSample_append_left x y ch i (by
          rw [hx]
          calc (i + 1) * (2 * ch) ≤ q * (2 * ch) :=
                Nat.mul_le_mul_right _ (by omega)
            _ = 2 * ch * q := by ring))
    have hright : collectSamples (monoSample (x ++ y) ch) (0 + q)
        ((y.length + 2 * ch - 1) / (2 * ch)) =
        collectSamples (monoSample y ch) 0
          ((y.length + 2 * ch - 1) / (2 * ch)) := by
      rw [show 0 + q = q + 0 from by omega, collectSamples_shift]
      exact collectSamples_congr _ _ _ 0 (fun i _ _ =>
        monoSample_append_shift x y ch i q hx)
    rw [hleft, hright]
    obtain ⟨la, hla⟩ := collectSamples_isSome (monoSample x ch) q 0
      (fun i _ h2 => monoSample_isSome x ch i (by
        rw [hx]
        calc (i + 1) * (2 * ch) ≤ q * (2 * ch) :=
              Nat.mul_le_mul_right _ (by omega)
          _ = 2 * ch * q := by ring))
    rw [hla]
    cases collectSamples (monoSample y ch) 0
        ((y.length + 2 * ch - 1) / (2 * ch)) with
    | none => simp
    | some lb => simp [List.flatMap_append]
  · have hndxy : ¬ ch ∣ (x ++ y).length := by
      rw [List.length_append]
      intro hsum
      exact hdy ((Nat.dvd_add_right hdx).mp hsum)
    simp only [convertToMono, if_neg hndxy, if_neg hdy]
    cases hxx : (if ch ∣ x.length then
        (collectSamples (monoSample x ch) 0
            ((x.length + 2 * ch - 1) / (2 * ch))).map
          (fun ss => ss.flatMap writeInt16LE)
      else none) with
    | none => simp
    | some a => simp

/-- Associativity core: when both blocks normalize, and the combined
block normalizes to the concatenation of their normalized bytes, two
pushes emit exactly the frames of the single combined push and leave the
same residual. -/
theorem processAudioData_assoc_core (st : AudioProcessor)
    (b1 b2 : List ℕ) (rate ch : ℕ) (d1 d2 : List ℕ)
    (hd1 : normalizeData b1 rate ch = some d1)
    (hd2 : normalizeData b2 rate ch = some d2)
    (hd : normalizeData (b1 ++ b2) rate ch = some (d1 ++ d2)) :
    ∃ f1 st1 f2 st2 fc stc,
      processAudioData st b1 rate ch = some (f1, st1) ∧
      processAudioData st1 b2 rate ch = some (f2, st2) ∧
      processAudioData st (b1 ++ b2) rate ch = some (fc, stc) ∧
      f1 ++ f2 = fc ∧ st2 = stc := by
  refine ⟨(extractFrames (st.buffer ++ d1)).1,
    ⟨(extractFrames (st.buffer ++ d1)).2⟩,
    (extractFrames ((extractFrames (st.buffer ++ d1)).2 ++ d2)).1,
    ⟨(extractFrames ((extractFrames (st.buffer ++ d1)).2 ++ d2)).2⟩,
    (extractFrames (st.buffer ++ (d1 ++ d2))).1,
    ⟨(extractFrames (st.buffer ++ (d1 ++ d2))).2⟩, ?_, ?_, ?_, ?_, ?_⟩
  · rw [processAudioData, hd1]; rfl
  · rw [processAudioData, hd2]; rfl
  · rw [processAudioData, hd]; rfl
  · rw [← List.append_assoc, extractFrames_append (st.buffer ++ d1) d2]
  · rw [← List.append_assoc, extractFrames_append (st.buffer ++ d1) d2]

/-- C7 (amended): at source rate 16 kHz (the identity resampling path)
with channel-aligned blocks (byte length divisible by 2·channels), two
consecutive pushes emit exactly the concatenation of the frames of the
single combined push, and leave the normalizer in the same state. (With
resampling active, block boundaries shift both the interpolation and the
floor of the output sample count, and the law fails — see the
counterexample; unaligned multichannel blocks make the downmix read out
of range.) -/
theorem push_associativity_16k (st : AudioProcessor) (b1 b2 : List ℕ)
    (ch : ℕ) (hch : 0 < ch)
    (h1 : 2 * ch ∣ b1.length) (h2 : 2 * ch ∣ b2.length) :
    ∃ f1 st1 f2 st2 fc stc,
      processAudioData st b1 16000 ch = some (f1, st1) ∧
      processAudioData st1 b2 16000 ch = some (f2, st2) ∧
      processAudioData st (b1 ++ b2) 16000 ch = some (fc, stc) ∧
      f1 ++ f2 = fc ∧ st2 = stc := by
  obtain ⟨q1, hq1⟩ := h1
  obtain ⟨q2, hq2⟩ := h2
  by_cases hc : 1 < ch
  · obtain ⟨d1, hd1⟩ := convertToMono_isSome b1 ch q1 hch hq1
    obtain ⟨d2, hd2⟩ := convertToMono_isSome b2 ch q2 hch hq2
    have hdc : convertToMono (b1 ++ b2) ch = some (d1 ++ d2) := by
      rw [convertToMono_append b1 b2 ch q1 hch hq1, hd1, hd2]
      rfl
    exact processAudioData_assoc_core st b1 b2 16000 ch d1 d2
      (by simp [normalizeData, hc, hd1]) (by simp [normalizeData, hc, hd2])
      (by simp [normalizeData, hc, hdc])
  · exact processAudioData_assoc_core st b1 b2 16000 ch b1 b2
      (by simp [normalizeData, hc]) (by simp [normalizeData, hc])
      (by simp [normalizeData, hc])

/-- Witness for C7 (amended): two pushes of one stereo sample block each
(4 bytes at 2 channels) agree with the combined 8-byte push. -/
theorem push_associativity_16k_witness :
    ∃ f1 st1 f2 st2 fc stc,
      processAudioData ⟨[]⟩ (List.replicate 4 0) 16000 2 = some (f1, st1) ∧
      processAudioData st1 (List.replicate 4 0) 16000 2 = some (f2, st2) ∧
      processAudioData ⟨[]⟩ (List.replicate 4 0 ++ List.replicate 4 0) 16000 2 =
        some (fc, stc) ∧
      f1 ++ f2 = fc ∧ st2 = stc :=
  push_associativity_16k ⟨[]⟩ (List.replicate 4 0) (List.replicate 4 0) 2
    (by decide) (by decide) (by decide)

/-! ## Session Controller (`src/server/session-manager.js`) -/

/-- Observable actions of a session operation, listed in execution
order; used to state the ordering properties of the barge-in protocol. -/
inductive SessionAction
  | stateChange (src tgt : SessionState)
  | transitionRejected (src tgt : SessionState)
  | tripCancel
  | newCancelHandle
  | flushAudioBuffer
  | ttsPhaseReset
  | sttReset
  | logEvent (name : String)
deriving DecidableEq, Repr

/-- The per-session state. `AbortController`s are modelled as a store of
tripped flags (`controllers`, in allocation order) plus the index the
session's `ttsAbortController` field currently references (`activeCtrl`,
`none` for null). The peer connection and transport adapter are external
collaborators; the synthesizer's only internal state is its phase, and
outbound frames sent to the browser accumulate in `outbound`. -/
structure Session where
  machine : StateMachine
  stt : FakeSTT
  ttsPhase : ℚ
  controllers : List Bool
  activeCtrl : Option ℕ
  audioBuffer : List (List ℕ)
  isProcessingAudio : Bool
  logs : List String
  outbound : List (List ℕ)
deriving DecidableEq, Repr

/-- A `stateMachine.transition(...)` call made by the session, recording
the resulting state change (or its rejection) as an action. -/
def smTransitionT (m : StateMachine) (tgt : SessionState) :
    StateMachine × List SessionAction :=
  let r := m.transition tgt
  (r.2, if r.1 then [.stateChange m.state tgt] else [.transitionRejected m.state tgt])

/-- `Session.handleBargeIn()`, step by step as in the source: transition
to `INTERRUPTED`; if an abort controller is present, abort it and
reinitialize a fresh one; flush `audioBuffer`; reset the synthesizer
phase; transition back to `LISTENING`; reset the recognizer; record the
`barge_in` event. -/
def handleBargeIn (s : Session) : Session × List SessionAction :=
  let t1 := smTransitionT s.machine .INTERRUPTED
  let ctrl : (List Bool × Option ℕ) × List SessionAction :=
    match s.activeCtrl with
    | some i => ((s.controllers.set i true ++ [false],
                  some s.controllers.length),
                 [.tripCancel, .newCancelHandle])
    | none => ((s.controllers, none), [])
  let t2 := smTransitionT t1.1 .LISTENING
  ({ s with
     machine := t2.1,
     stt := s.stt.reset,
     ttsPhase := 0,
     controllers := ctrl.1.1,
     activeCtrl := ctrl.1.2,
     audioBuffer := [],
     logs := s.logs ++ ["barge_in"] },
   t1.2 ++ ctrl.2 ++ [.flushAudioBuffer, .ttsPhaseReset] ++ t2.2 ++
     [.sttReset, .logEvent "barge_in"])

/-- `Session.processAudioFrame(audioFrame)`: in `SPEAKING`, only the
barge-in energy check runs (no recognition); in `LISTENING`, the frame
goes to the recognizer and the transcript events are logged, a Final
also moving the machine to `PROCESSING` (the response generation it then
awaits is modelled separately by `Session.generateResponse`); in any
other state the frame is dropped. -/
def Session.processAudioFrame (s : Session) (frame : List ℕ) :
    Session × List SessionAction :=
  if s.machine.state = .SPEAKING then
    if voicedFrame frame then handleBargeIn s else (s, [])
  else if s.machine.state = .LISTENING then
    let r := s.stt.processFrame frame
    match r.1 with
    | some (.interim _) =>
      ({ s with stt := r.2, logs := s.logs ++ ["stt_partial"] },
       [.logEvent "stt_partial"])
    | some (.finalized _) =>
      let t1 := smTransitionT s.machine .PROCESSING
      ({ s with stt := r.2, machine := t1.1, logs := s.logs ++ ["stt_final"] },
       [.logEvent "stt_final"] ++ t1.2)
    | none => ({ s with stt := r.2 }, [])
  else (s, [])

/-- `Session.generateResponse(userText)` taken synchronously (no inbound
frame interleaves with the drain): log `tts_start`, transition to
`SPEAKING` (the source ignores the result), allocate a fresh abort
controller, drain the synthesizer — the fresh controller is never
tripped during a synchronous drain, so every frame is sent — then log
`tts_complete`, transition to `LISTENING` and reset the phase. -/
def Session.generateResponse (g : ℕ → ℤ) (s : Session) (userText : List Char) :
    Session × List SessionAction :=
  let botResponse := "You said: ".toList ++ userText
  let t1 := smTransitionT s.machine .SPEAKING
  let frames := generateAudioStream g botResponse (fun _ => false)
  let t2 := smTransitionT t1.1 .LISTENING
  ({ s with
     machine := t2.1,
     controllers := s.controllers ++ [false],
     activeCtrl := some s.controllers.length,
     outbound := s.outbound ++ frames,
     ttsPhase := 0,
     logs := s.logs ++ ["tts_start"] ++
       (if frames.isEmpty then [] else ["tts_first_chunk"]) ++
       ["tts_complete"] },
   [.logEvent "tts_start"] ++ t1.2 ++ [.newCancelHandle] ++
     (if frames.isEmpty then [] else [.logEvent "tts_first_chunk"]) ++
     [.logEvent "tts_complete"] ++ t2.2 ++ [.ttsPhaseReset])

/-- `Session.close()`: trip the active abort controller if any (no
reallocation), close the peer connection (external), stop audio
processing, record the `session_close` event. The state machine is not
touched. -/
def Session.close (s : Session) : Session × List SessionAction :=
  let ctrl : List Bool × List SessionAction :=
    match s.activeCtrl with
    | some i => (s.controllers.set i true, [.tripCancel])
    | none => (s.controllers, [])
  ({ s with
     controllers := ctrl.1,
     isProcessingAudio := false,
     logs := s.logs ++ ["session_close"] },
   ctrl.2 ++ [.logEvent "session_close"])

/-- C1: a voiced frame (RMS above the voice threshold) arriving while
the session is `SPEAKING`, with an active cancellation handle, performs
exactly the barge-in sequence: the state goes `SPEAKING → INTERRUPTED →
LISTENING` and nothing else, the active handle is tripped after the
transition to `INTERRUPTED` and before the transition to `LISTENING`,
and the recognizer's VAD counters are reset after `LISTENING` is
reached; afterwards the machine is in `LISTENING`, the history gained
exactly those two transitions, the old handle's flag is tripped, and the
voiced/silence counters are zero. -/
theorem bargeIn_sequence (s : Session) (frame : List ℕ) (i : ℕ)
    (hsp : s.machine.state = .SPEAKING)
    (hvoiced : voicedFrame frame = true)
    (hctrl : s.activeCtrl = some i)
    (hi : i < s.controllers.length) :
    (s.processAudioFrame frame).2 =
      [.stateChange .SPEAKING .INTERRUPTED, .tripCancel, .newCancelHandle,
       .flushAudioBuffer, .ttsPhaseReset, .stateChange .INTERRUPTED .LISTENING,
       .sttReset, .logEvent "barge_in"] ∧
    (s.processAudioFrame frame).1.machine.state = .LISTENING ∧
    (s.processAudioFrame frame).1.machine.history =
      s.machine.history ++ [⟨.SPEAKING, .INTERRUPTED⟩, ⟨.INTERRUPTED, .LISTENING⟩] ∧
    (s.processAudioFrame frame).1.controllers[i]? = some true ∧
    (s.processAudioFrame frame).1.stt.voiceFrames = 0 ∧
    (s.processAudioFrame frame).1.stt.silenceFrames = 0 := by
  have hpf : s.processAudioFrame frame = handleBargeIn s := by
    rw [Session.processAudioFrame, if_pos hsp, if_pos hvoiced]
  have ht1 : smTransitionT s.machine .INTERRUPTED =
      ({ s.machine with
         state := .INTERRUPTED,
         history := s.machine.history ++ [⟨.SPEAKING, .INTERRUPTED⟩] },
       [.stateChange .SPEAKING .INTERRUPTED]) := by
    rw [smTransitionT, StateMachine.transition, if_pos (by rw [hsp]; decide)]
    simp [hsp]
  rw [hpf, handleBargeIn, hctrl, ht1]
  simp only [smTransitionT, StateMachine.transition]
  rw [if_pos (by decide : isValidTransition .INTERRUPTED .LISTENING = true)]
  refine ⟨by simp [hsp], rfl, by simp, ?_, rfl, rfl⟩
  show (s.controllers.set i true ++ [false])[i]? = some true
  rw [List.getElem?_append_left (by simpa using hi),
    List.getElem?_set_self (by simpa using hi)]

/-- A loud test frame: 320 samples of value 16000 (RMS ≈ 0.49 > 0.02). -/
def loudFrame : List ℕ := (List.replicate 320 ([128, 62] : List ℕ)).flatten

/-- A speaking session with one fresh (untripped) active controller. -/
def speakingSession : Session :=
  ⟨⟨"s", .SPEAKING, []⟩, sttInit, 0, [false], some 0, [], true, [], []⟩

set_option maxRecDepth 100000 in
/-- Witness for C1: the barge-in sequence at a concrete speaking session
and a concrete loud frame. -/
theorem bargeIn_sequence_witness :
    (speakingSession.processAudioFrame loudFrame).2 =
      [.stateChange .SPEAKING .INTERRUPTED, .tripCancel, .newCancelHandle,
       .flushAudioBuffer, .ttsPhaseReset, .stateChange .INTERRUPTED .LISTENING,
       .sttReset, .logEvent "barge_in"] ∧
    (speakingSession.processAudioFrame loudFrame).1.machine.state = .LISTENING ∧
    (speakingSession.processAudioFrame loudFrame).1.machine.history =
      speakingSession.machine.history ++
        [⟨.SPEAKING, .INTERRUPTED⟩, ⟨.INTERRUPTED, .LISTENING⟩] ∧
    (speakingSession.processAudioFrame loudFrame).1.controllers[0]? = some true ∧
    (speakingSession.processAudioFrame loudFrame).1.stt.voiceFrames = 0 ∧
    (speakingSession.processAudioFrame loudFrame).1.stt.silenceFrames = 0 :=
  bargeIn_sequence speakingSession loudFrame 0 rfl (by decide) rfl (by decide)

/-- A listening session with no active controller, about to be closed. -/
def listeningSession : Session :=
  ⟨⟨"s", .LISTENING, []⟩, sttInit, 0, [], none, [], true, [], []⟩

/-- Counterexample to C8 as stated: closing a session in `LISTENING`
leaves the state machine in `LISTENING` — `close()` never touches the
state machine, so the session does not end in `IDLE`. -/
theorem close_state_counterexample :
    (listeningSession.close.1.machine.state = SessionState.IDLE → False) ∧
    listeningSession.close.1.machine.state = SessionState.LISTENING := by
  decide

/-- C8 (amended): `close()` trips the active cancellation handle if one
is present, stops audio processing, and records a session-close event —
but it leaves the state machine entirely unchanged (in particular it
does not transition to `IDLE`). -/
theorem close_effects (s : Session) :
    s.close.1.isProcessingAudio = false ∧
    s.close.1.logs = s.logs ++ ["session_close"] ∧
    s.close.1.machine = s.machine ∧
    (∀ i, s.activeCtrl = some i → i < s.controllers.length →
      s.close.1.controllers[i]? = some true) := by
  refine ⟨?_, ?_, ?_, ?_⟩
  · cases h : s.activeCtrl <;> simp [Session.close, h]
  · cases h : s.activeCtrl <;> simp [Session.close, h]
  · cases h : s.activeCtrl <;> simp [Session.close, h]
  · intro i hc hi
    rw [Session.close, hc]
    exact List.getElem?_set_self hi

/-- Witness for C8 (amended): closing a speaking session with one active
controller trips it, stops audio processing, records the close event and
leaves the machine untouched. -/
theorem close_effects_witness :
    speakingSession.close.1.isProcessingAudio = false ∧
    speakingSession.close.1.logs = speakingSession.logs ++ ["session_close"] ∧
    speakingSession.close.1.machine = speakingSession.machine ∧
    (∀ i, speakingSession.activeCtrl = some i →
      i < speakingSession.controllers.length →
      speakingSession.close.1.controllers[i]? = some true) :=
  close_effects speakingSession
